import Mathlib

/- Shallow embedding of src/landscapes.py: the unseen-artwork acquisition
   engine.  Covered here: the seen-index regex and its rebuild
   (_index_seen / seen / mark_seen), the classifier save_if_ok with the
   slug helper, the Met session loop (met_random), the offline fallback
   (local_cycle) and the engine fallback loop in main.  Network calls are
   modelled by an oracle list of per-candidate outcomes; PIL decoding is
   modelled by attaching an optional (width, height) to each byte blob;
   the wall clock used by os.utime is modelled as a value strictly larger
   than every stored access time. -/

/-- ASCII alphanumeric test, mirroring the regex class [A-Za-z0-9] used by
the slug helper in landscapes.py. -/
def isAlnumCh (c : Char) : Bool :=
  (decide ('A' ≤ c) && decide (c ≤ 'Z')) ||
  (decide ('a' ≤ c) && decide (c ≤ 'z')) ||
  (decide ('0' ≤ c) && decide (c ≤ '9'))

/-- ASCII digit test, mirroring the regex class \d of _seen_rx on ASCII
input. -/
def isDigitCh (c : Char) : Bool := decide ('0' ≤ c) && decide (c ≤ '9')

/- One re.sub pass replacing every maximal run of non-alphanumeric
characters by a single underscore, as in slug in landscapes.py.  The two
mutually recursive states are: outside a run (emit the next character or
open a run with one underscore) and inside a run (drop further
non-alphanumeric characters until the run ends). -/
mutual

/-- State of the re.sub pass outside a non-alphanumeric run. -/
def collapseKeep : List Char → List Char
  | [] => []
  | c :: rest =>
    if isAlnumCh c then c :: collapseKeep rest else '_' :: collapseSkip rest

/-- State of the re.sub pass inside a non-alphanumeric run. -/
def collapseSkip : List Char → List Char
  | [] => []
  | c :: rest =>
    if isAlnumCh c then c :: collapseKeep rest else collapseSkip rest

end

/-- The whole re.sub call of slug starts outside any run. -/
def collapse (l : List Char) : List Char := collapseKeep l

/-- Python str.strip applied with the single character underscore. -/
def stripUnderscores (l : List Char) : List Char :=
  ((l.dropWhile (fun c => c = '_')).reverse.dropWhile (fun c => c = '_')).reverse

/-- The slug helper of landscapes.py: collapse non-alphanumeric runs to
underscores, truncate to 60 characters, strip underscores at both ends,
lowercase, and fall back to "untitled" when empty. -/
def slug (s : String) : String :=
  let t := (stripUnderscores ((collapse s.toList).take 60)).map Char.toLower
  if t.isEmpty then "untitled" else String.mk t

/-- The museum tags of the _seen_rx alternation in landscapes.py. -/
def TAGS : List String := ["met", "aic", "cma", "mia", "ham", "rijks", "si"]

/-- Matching of one SAVE_DIR file name against the regex
_(met|aic|cma|mia|ham|rijks|si)_(\d+)\.(jpg|rej)$ with re.I, returning the
lowercased tag group and the id group when the name matches.  A match must
end in a dot plus jpg or rej, preceded by a nonempty digit run, preceded by
an underscore, the tag, and another underscore. -/
def parseSeenName (name : String) : Option (String × String) :=
  match name.toList.reverse with
  | c1 :: c2 :: c3 :: c4 :: rest =>
    let ext := [Char.toLower c3, Char.toLower c2, Char.toLower c1]
    if c4 = '.' ∧ (ext = ['j', 'p', 'g'] ∨ ext = ['r', 'e', 'j']) then
      let digitsRev := rest.takeWhile isDigitCh
      let rest1 := rest.dropWhile isDigitCh
      if digitsRev.isEmpty then none
      else
        match rest1 with
        | '_' :: rest2 =>
          match TAGS.find? (fun t =>
              let tr := t.toList.reverse
              decide (((rest2.take tr.length).map Char.toLower) = tr) &&
              decide ((rest2.drop tr.length).take 1 = ['_'])) with
          | some t => some (t, String.mk digitsRev.reverse)
          | none => none
        | _ => none
    else none
  | _ => none

/-- The rebuild of the seen index from SAVE_DIR file names performed by
_index_seen at process start, queried for one (tag, id) pair: true when
some file name matches _seen_rx with that lowercased tag and that id. -/
def indexSeen (names : List String) (g oid : String) : Bool :=
  names.any (fun n => decide (parseSeenName n = some (g, oid)))

/-- A downloaded byte blob together with the result of decoding it with
PIL: none when Image.open raises UnidentifiedImageError, otherwise the
(width, height) pair. -/
structure ImgData where
  bytes : List Nat
  dims : Option (Nat × Nat)
deriving DecidableEq

/-- Program state of landscapes.py relevant to the engine: the contents of
SAVE_DIR (file name and bytes) and the in-memory SEEN map, flattened to
(tag, id) pairs. -/
structure St where
  saveDir : List (String × List Nat)
  seen : List (String × String)
deriving DecidableEq

/-- Empty initial state: fresh SAVE_DIR and empty SEEN. -/
def st0 : St := ⟨[], []⟩

/-- The seen predicate of landscapes.py: membership of the id in the SEEN
set of the group. -/
def seen (s : St) (g oid : String) : Bool := decide ((g, oid) ∈ s.seen)

/-- File name of a rejection marker, f-string g_oid.rej of mark_seen. -/
def rejFile (g oid : String) : String := g ++ "_" ++ oid ++ ".rej"

/-- mark_seen of landscapes.py: early return when the id is already in
SEEN, otherwise add it and, when not good, touch the .rej marker file
(exist_ok, so an existing marker is left as is). -/
def mark_seen (s : St) (g oid : String) (good : Bool) : St :=
  if (g, oid) ∈ s.seen then s
  else
    let s1 : St := ⟨s.saveDir, (g, oid) :: s.seen⟩
    if good then s1
    else if s1.saveDir.any (fun e => decide (e.1 = rejFile g oid)) then s1
    else ⟨(rejFile g oid, []) :: s1.saveDir, s1.seen⟩

/-- The acceptance test of save_if_ok: want_wide is None or want_wide
equals the computed wideness width >= height. -/
def orientOk (w : Option Bool) (wd ht : Nat) : Bool :=
  match w with
  | none => true
  | some b => decide (ht ≤ wd) == b

/-- The deterministic target file name of save_if_ok. -/
def savePath (title g oid : String) : String :=
  slug title ++ "_" ++ g ++ "_" ++ oid ++ ".jpg"

/-- save_if_ok of landscapes.py: decode the bytes; on decode failure mark
the id seen (bad) and return none; on an orientation match write the file
unless it already exists, mark seen (good) and return the path; otherwise
mark seen (bad) and return none. -/
def save_if_ok (s : St) (d : ImgData) (title g oid : String) (w : Option Bool) :
    St × Option String :=
  match d.dims with
  | none => (mark_seen s g oid false, none)
  | some (wd, ht) =>
    if orientOk w wd ht then
      let path := savePath title g oid
      let s1 : St :=
        if s.saveDir.any (fun e => decide (e.1 = path)) then s
        else ⟨(path, d.bytes) :: s.saveDir, s.seen⟩
      (mark_seen s1 g oid true, some path)
    else (mark_seen s g oid false, none)

/-- The attempt budget MAX_ATTEMPTS of landscapes.py. -/
def MAX_ATTEMPTS : Nat := 30

/-- Outcome of resolving and fetching one Met candidate, abstracting the
two network calls of the loop body: err models any exception raised by
jget or fetch (network error or server 5xx), noUrl models an object record
with neither primaryImage nor primaryImageSmall, and ok carries the
fetched bytes together with the object title. -/
inductive FetchRes where
  | err : FetchRes
  | noUrl : FetchRes
  | ok : ImgData → String → FetchRes
deriving DecidableEq

/-- Result of one met_random run: the final program state, the final value
of the attempt counter att, and the returned path (none models the
RuntimeError Met exhausted). -/
structure MetOut where
  st : St
  att : Nat
  result : Option String
deriving DecidableEq

/-- The candidate loop of met_random in landscapes.py, over the already
shuffled id list paired with its oracle outcomes: break once att reaches
MAX_ATTEMPTS, skip seen ids, skip ids with no image url (the continue
inside the try block bypasses the att increment), count an exception as
one attempt, classify fetched bytes through save_if_ok and return the
first accepted path. -/
def metLoop (w : Option Bool) : List (String × FetchRes) → St → Nat → MetOut
  | [], s, att => ⟨s, att, none⟩
  | (oid, r) :: rest, s, att =>
    if MAX_ATTEMPTS ≤ att then ⟨s, att, none⟩
    else if seen s "met" oid then metLoop w rest s att
    else
      match r with
      | FetchRes.err => metLoop w rest s (att + 1)
      | FetchRes.noUrl => metLoop w rest s att
      | FetchRes.ok d title =>
        match save_if_ok s d title "met" oid w with
        | (s1, some p) => ⟨s1, att, some p⟩
        | (s1, none) => metLoop w rest s1 (att + 1)

/-- met_random starts its loop with att equal to zero. -/
def met_random (w : Option Bool) (cands : List (String × FetchRes)) (s : St) :
    MetOut :=
  metLoop w cands s 0

/-- The two distinct RuntimeError messages of local_cycle in
landscapes.py: noSaved stands for "no saved images for offline mode" and
noMatch for "offline: no orientation match". -/
inductive LErr where
  | noSaved : LErr
  | noMatch : LErr
deriving DecidableEq

/-- One saved image file as seen by local_cycle: its name, its last-access
time and the result of decoding it (none when Image.open raises and the
file is skipped). -/
structure FileEnt where
  name : String
  atime : Nat
  dims : Option (Nat × Nat)
deriving DecidableEq

/-- The orientation filter of local_cycle: undecodable files never match;
otherwise w is None or the computed wideness equals w. -/
def fmatch (w : Option Bool) (f : FileEnt) : Bool :=
  match f.dims with
  | none => false
  | some (wd, ht) => orientOk w wd ht

/-- Comparison key of the sorted call in local_cycle: ascending st_atime. -/
def atimeLE (a b : FileEnt) : Prop := a.atime ≤ b.atime

instance : DecidableRel atimeLE := fun a b => Nat.decLe a.atime b.atime

instance : IsTotal FileEnt atimeLE := ⟨fun a b => Nat.le_total a.atime b.atime⟩

instance : IsTrans FileEnt atimeLE := ⟨fun _ _ _ h1 h2 => Nat.le_trans h1 h2⟩

/-- The wall-clock value written by os.utime on selection, modelled as
strictly larger than every stored access time. -/
def freshTime (files : List FileEnt) : Nat :=
  (files.map FileEnt.atime).foldr max 0 + 1

/-- The os.utime call of local_cycle: refresh the access time of the file
with the selected name. -/
def touchEnt (nm : String) (t : Nat) (files : List FileEnt) : List FileEnt :=
  files.map (fun g => if g.name = nm then ⟨g.name, t, g.dims⟩ else g)

/-- local_cycle of landscapes.py: raise noSaved on an empty directory,
otherwise walk the files in ascending access-time order, return the first
decodable orientation match after refreshing its access time, and raise
noMatch when no file matches. -/
def local_cycle (w : Option Bool) (files : List FileEnt) :
    Except LErr (String × List FileEnt) :=
  if files.isEmpty then Except.error LErr.noSaved
  else
    match (List.insertionSort atimeLE files).find? (fmatch w) with
    | some f => Except.ok (f.name, touchEnt f.name (freshTime files) files)
    | none => Except.error LErr.noMatch

/-- Observable events of one main run: running the adapter session at a
given position of the shuffled backend list, or invoking the offline
cycler. -/
inductive Ev where
  | adapter : Nat → Ev
  | offline : Ev
deriving DecidableEq

/-- Final outcome of main: an online success with its path, an offline
success with its path, or the sys.exit failure carrying the offline
error (the only failure exit of main). -/
inductive Outcome where
  | onlineOk : String → Outcome
  | offlineOk : String → Outcome
  | failExit : LErr → Outcome
deriving DecidableEq

/-- The backend for-loop of main: each session is abstracted to its
result, some path on success and none when it raises (exhausted or a hard
failure such as a missing API key, both RuntimeError).  Returns the events
emitted and the first success. -/
def engineLoop : Nat → List (Option String) → List Ev × Option String
  | _, [] => ([], none)
  | i, b :: rest =>
    match b with
    | some p => ([Ev.adapter i], some p)
    | none =>
      let r := engineLoop (i + 1) rest
      (Ev.adapter i :: r.1, r.2)

/-- The expected adapter event run for positions i, i+1, ..., i+n-1. -/
def adapterEvts : Nat → Nat → List Ev
  | _, 0 => []
  | i, n + 1 => Ev.adapter i :: adapterEvts (i + 1) n

/-- main of landscapes.py after argument parsing and backend shuffling:
try each backend in order, return the first success, and only when every
backend raised invoke local_cycle once, succeeding or exiting with a
failure status as it does. -/
def mainRun (bs : List (Option String)) (off : Except LErr String) :
    List Ev × Outcome :=
  let r := engineLoop 0 bs
  match r.2 with
  | some p => (r.1, Outcome.onlineOk p)
  | none =>
    match off with
    | Except.ok p => (r.1 ++ [Ev.offline], Outcome.offlineOk p)
    | Except.error e => (r.1 ++ [Ev.offline], Outcome.failExit e)

/-- main with its offline fallback tied to local_cycle over the saved
image directory. -/
def mainRunFS (bs : List (Option String)) (w : Option Bool)
    (files : List FileEnt) : List Ev × Outcome :=
  mainRun bs ((local_cycle w files).map Prod.fst)

/-- An id just marked seen is seen, whatever branch mark_seen takes. -/
lemma seen_mark_seen (s : St) (g oid : String) (good : Bool) :
    seen (mark_seen s g oid good) g oid = true := by
  unfold mark_seen seen
  by_cases h : (g, oid) ∈ s.seen
  · rw [if_pos h]; exact decide_eq_true h
  · rw [if_neg h]
    cases good with
    | true => exact decide_eq_true (List.mem_cons_self _ _)
    | false =>
      by_cases h2 : (List.any s.saveDir fun e => decide (e.1 = rejFile g oid)) = true
      · simp only [h2, if_true]
        exact decide_eq_true (List.mem_cons_self _ _)
      · simp only [h2, if_false]
        exact decide_eq_true (List.mem_cons_self _ _)

/-- mark_seen with a good outcome never touches the save directory. -/
lemma mark_seen_saveDir_good (s : St) (g oid : String) :
    (mark_seen s g oid true).saveDir = s.saveDir := by
  unfold mark_seen
  by_cases h : (g, oid) ∈ s.seen
  · rw [if_pos h]
  · rw [if_neg h]; rfl

/-- C8: the Ledger record operation is idempotent with first-write-wins:
when the (source, id) pair is already in the seen set, mark_seen is a
complete no-op, so the seen set is unchanged, no rejection marker file is
written, and the original outcome is never overwritten or re-evaluated
(mark_seen never looks at the requested orientation at all). -/
theorem mark_seen_noop_when_seen (s : St) (g oid : String) (good : Bool)
    (h : seen s g oid = true) : mark_seen s g oid good = s := by
  unfold mark_seen
  rw [if_pos (of_decide_eq_true h)]

/-- Witness for C8 at a concrete state whose seen set holds the pair. -/
theorem mark_seen_noop_when_seen_witness :
    mark_seen ⟨[], [("met", "1")]⟩ "met" "1" false = ⟨[], [("met", "1")]⟩ :=
  mark_seen_noop_when_seen ⟨[], [("met", "1")]⟩ "met" "1" false (by decide)

/-- C4: orientation correctness of save_if_ok: every returned path comes
from decodable bytes whose width is at least the height exactly when Wide
was requested and whose height exceeds the width exactly when Tall was
requested, and with no requested orientation any decodable image is
accepted (as is any decodable image whose computed wideness equals the
requested one). -/
theorem save_if_ok_orientation :
    (∀ s d title g oid w p, (save_if_ok s d title g oid w).2 = some p →
        ∃ wd ht, d.dims = some (wd, ht) ∧
          (w = some true → ht ≤ wd) ∧ (w = some false → wd < ht)) ∧
    (∀ s d title g oid wd ht, d.dims = some (wd, ht) →
        ((save_if_ok s d title g oid none).2).isSome = true) ∧
    (∀ s d title g oid wd ht b, d.dims = some (wd, ht) →
        decide (ht ≤ wd) = b →
        ((save_if_ok s d title g oid (some b)).2).isSome = true) := by
  refine ⟨?_, ?_, ?_⟩
  · intro s d title g oid w p h
    cases hd : d.dims with
    | none =>
      simp only [save_if_ok, hd] at h
      exact Option.noConfusion h
    | some wh =>
      obtain ⟨wd, ht⟩ := wh
      simp only [save_if_ok, hd] at h
      by_cases ho : orientOk w wd ht = true
      · refine ⟨wd, ht, rfl, ?_, ?_⟩
        · intro hw
          rw [hw] at ho
          simp only [orientOk, beq_iff_eq, decide_eq_true_eq] at ho
          exact ho
        · intro hw
          rw [hw] at ho
          simp only [orientOk, beq_iff_eq, decide_eq_false_iff_not] at ho
          omega
      · rw [if_neg ho] at h
        exact Option.noConfusion h
  · intro s d title g oid wd ht hd
    have ho : orientOk none wd ht = true := rfl
    simp only [save_if_ok, hd, ho, if_true, Option.isSome_some]
  · intro s d title g oid wd ht b hd hb
    have ho : orientOk (some b) wd ht = true := by
      simp only [orientOk, hb, beq_self_eq_true]
    simp only [save_if_ok, hd, ho, if_true, Option.isSome_some]

/-- Witness for C4 at a concrete wide image accepted under a Wide
request. -/
theorem save_if_ok_orientation_witness :
    ∃ wd ht, (ImgData.mk [1] (some (4, 3))).dims = some (wd, ht) ∧
      ((some true : Option Bool) = some true → ht ≤ wd) ∧
      ((some true : Option Bool) = some false → wd < ht) :=
  save_if_ok_orientation.1 st0 (ImgData.mk [1] (some (4, 3))) "t" "met" "1"
    (some true) "t_met_1.jpg" (by decide)

/-- C10: when the deterministic target file of an accepted candidate
already exists, save_if_ok leaves the whole save directory unchanged (in
particular the stored bytes of that file), still marks the candidate
seen with a good outcome, and returns the existing path. -/
theorem save_if_ok_no_overwrite (s : St) (d : ImgData) (title g oid : String)
    (w : Option Bool) (wd ht : Nat)
    (hd : d.dims = some (wd, ht)) (ho : orientOk w wd ht = true)
    (hex : (s.saveDir.any fun e => decide (e.1 = savePath title g oid)) = true) :
    (save_if_ok s d title g oid w).1.saveDir = s.saveDir ∧
    (save_if_ok s d title g oid w).2 = some (savePath title g oid) ∧
    seen (save_if_ok s d title g oid w).1 g oid = true := by
  have hred : save_if_ok s d title g oid w =
      (mark_seen s g oid true, some (savePath title g oid)) := by
    simp only [save_if_ok, hd, ho, if_true, hex]
  rw [hred]
  exact ⟨mark_seen_saveDir_good s g oid, rfl, seen_mark_seen s g oid true⟩

/-- Witness for C10: the target file t_met_1.jpg already holds bytes [9];
after save_if_ok they are untouched while the path is still returned. -/
theorem save_if_ok_no_overwrite_witness :
    (save_if_ok ⟨[("t_met_1.jpg", [9])], []⟩ (ImgData.mk [1, 2] (some (4, 3)))
        "t" "met" "1" (some true)).1.saveDir = [("t_met_1.jpg", [9])] ∧
    (save_if_ok ⟨[("t_met_1.jpg", [9])], []⟩ (ImgData.mk [1, 2] (some (4, 3)))
        "t" "met" "1" (some true)).2 = some (savePath "t" "met" "1") ∧
    seen (save_if_ok ⟨[("t_met_1.jpg", [9])], []⟩ (ImgData.mk [1, 2] (some (4, 3)))
        "t" "met" "1" (some true)).1 "met" "1" = true :=
  save_if_ok_no_overwrite ⟨[("t_met_1.jpg", [9])], []⟩
    (ImgData.mk [1, 2] (some (4, 3))) "t" "met" "1" (some true) 4 3
    (by decide) (by decide) (by decide)

/-- C1 is contradicted by the code: a rejection marker written by
mark_seen is named g_oid.rej without the leading underscore that _seen_rx
demands, so a fresh _index_seen of a later run never reports a rejected
pair as seen; likewise an accepted rijks id with non-digit characters
never matches the digit-only id group even though its .jpg file is on
disk.  The final conjunct shows the rebuild does work for an accepted
digit id, isolating the two slips. -/
theorem seen_not_rebuilt_across_runs :
    (mark_seen st0 "met" "1" false).saveDir.map Prod.fst = ["met_1.rej"] ∧
    indexSeen ((mark_seen st0 "met" "1" false).saveDir.map Prod.fst)
      "met" "1" = false ∧
    (save_if_ok st0 (ImgData.mk [7] (some (4, 3))) "View" "rijks" "SK-C-5"
        (some true)).1.saveDir.map Prod.fst = ["view_rijks_SK-C-5.jpg"] ∧
    indexSeen ["view_rijks_SK-C-5.jpg"] "rijks" "SK-C-5" = false ∧
    indexSeen ["view_met_12.jpg"] "met" "12" = true := by decide

/-- Once the attempt counter has reached the cap, the loop stops at the
next iteration without any further state change. -/
lemma metLoop_break (w : Option Bool) (cs : List (String × FetchRes)) (s : St)
    (att : Nat) (h : MAX_ATTEMPTS ≤ att) : metLoop w cs s att = ⟨s, att, none⟩ := by
  cases cs with
  | nil => rfl
  | cons c rest =>
    obtain ⟨oid, r⟩ := c
    simp only [metLoop, if_pos h]

/-- C5: budget bound of the Met session: starting at or below the cap the
attempt counter never exceeds MAX_ATTEMPTS = 30 (each increment being one
candidate that was fetched, or whose resolution raised); a candidate
already in the seen index is skipped with no effect on counter or state;
and a candidate with no image reference is likewise free. -/
theorem met_budget_bound :
    (∀ w cs s att, att ≤ MAX_ATTEMPTS →
        (metLoop w cs s att).att ≤ MAX_ATTEMPTS) ∧
    (∀ w oid r cs s att, seen s "met" oid = true →
        metLoop w ((oid, r) :: cs) s att = metLoop w cs s att) ∧
    (∀ w oid cs s att,
        metLoop w ((oid, FetchRes.noUrl) :: cs) s att = metLoop w cs s att) := by
  refine ⟨?_, ?_, ?_⟩
  · intro w cs
    induction cs with
    | nil => intro s att h; exact h
    | cons c rest ih =>
      intro s att h
      obtain ⟨oid, r⟩ := c
      by_cases hm : MAX_ATTEMPTS ≤ att
      · rw [metLoop_break w _ s att hm]; exact h
      · simp only [metLoop, if_neg hm]
        by_cases hs : seen s "met" oid = true
        · rw [if_pos hs]; exact ih s att h
        · rw [if_neg hs]
          cases r with
          | err => exact ih s (att + 1) (by omega)
          | noUrl => exact ih s att h
          | ok d title =>
            show (match save_if_ok s d title "met" oid w with
              | (s1, some p) => MetOut.mk s1 att (some p)
              | (s1, none) => metLoop w rest s1 (att + 1)).att ≤ MAX_ATTEMPTS
            split
            · exact h
            · exact ih _ (att + 1) (by omega)
  · intro w oid r cs s att hs
    by_cases hm : MAX_ATTEMPTS ≤ att
    · rw [metLoop_break w _ s att hm, metLoop_break w cs s att hm]
    · simp only [metLoop, if_neg hm, if_pos hs]
  · intro w oid cs s att
    by_cases hm : MAX_ATTEMPTS ≤ att
    · rw [metLoop_break w _ s att hm, metLoop_break w cs s att hm]
    · simp only [metLoop, if_neg hm]
      by_cases hs : seen s "met" oid = true
      · rw [if_pos hs]
      · rw [if_neg hs]

/-- Witness for C5: the bound after one transient candidate, a skip of a
seen candidate, and a skip of a candidate without image reference. -/
theorem met_budget_bound_witness :
    (metLoop (some true) [("1", FetchRes.err)] st0 0).att ≤ MAX_ATTEMPTS ∧
    metLoop (some true) [("1", FetchRes.err)] ⟨[], [("met", "1")]⟩ 0 =
      metLoop (some true) [] ⟨[], [("met", "1")]⟩ 0 ∧
    metLoop (some true) [("2", FetchRes.noUrl)] st0 0 =
      metLoop (some true) [] st0 0 :=
  ⟨met_budget_bound.1 (some true) [("1", FetchRes.err)] st0 0 (by decide),
   met_budget_bound.2.1 (some true) "1" FetchRes.err [] ⟨[], [("met", "1")]⟩ 0
     (by decide),
   met_budget_bound.2.2 (some true) "2" [] st0 0⟩

/-- C2 is contradicted by the code: a candidate whose object record has no
image url is skipped by a bare continue, so nothing at all is recorded in
the ledger — here the single candidate 1 has no url and the final state is
exactly the initial one, with ("met", "1") not seen, where the claim
demands a Rejected record. -/
theorem met_missing_image_no_record_cex :
    metLoop none [("1", FetchRes.noUrl)] st0 0 = ⟨st0, 0, none⟩ ∧
    seen (metLoop none [("1", FetchRes.noUrl)] st0 0).st "met" "1" = false := by
  decide

/-- C2 as amended: a candidate with no image reference is skipped without
any ledger record, without a fetch and without consuming budget, and the
session continues with the next candidate unchanged. -/
theorem met_missing_image_skip (w : Option Bool) (oid : String)
    (cs : List (String × FetchRes)) (s : St) (att : Nat) :
    metLoop w ((oid, FetchRes.noUrl) :: cs) s att = metLoop w cs s att := by
  by_cases hm : MAX_ATTEMPTS ≤ att
  · rw [metLoop_break w _ s att hm, metLoop_break w cs s att hm]
  · simp only [metLoop, if_neg hm]
    by_cases hs : seen s "met" oid = true
    · rw [if_pos hs]
    · rw [if_neg hs]

/-- C3 is contradicted by the code: a transient failure does consume one
budget unit — with the single candidate 1 raising, the attempt counter
ends at 1, not 0, while the ledger is indeed unchanged and the session
ends exhausted. -/
theorem met_transient_budget_cex :
    (metLoop none [("1", FetchRes.err)] st0 0).att = 1 ∧
    (metLoop none [("1", FetchRes.err)] st0 0).st = st0 ∧
    (metLoop none [("1", FetchRes.err)] st0 0).result = none := by decide

/-- C3 as amended: on a transient failure the session logs, leaves the
ledger unchanged and advances to the next candidate, but it consumes one
budget unit: the except branch of met_random falls through to the att
increment. -/
theorem met_transient_consumes_budget (w : Option Bool) (oid : String)
    (cs : List (String × FetchRes)) (s : St) (att : Nat)
    (hs : seen s "met" oid = false) (hm : att < MAX_ATTEMPTS) :
    metLoop w ((oid, FetchRes.err) :: cs) s att = metLoop w cs s (att + 1) := by
  simp only [metLoop, if_neg (Nat.not_le.mpr hm), hs]
  rw [if_neg (by simp [hs])]

/-- Witness for C3 as amended, at an unseen candidate below the cap. -/
theorem met_transient_consumes_budget_witness :
    metLoop none [("1", FetchRes.err)] st0 0 = metLoop none [] st0 1 :=
  met_transient_consumes_budget none "1" [] st0 0 (by decide) (by decide)

/-- When every backend raises, the engine loop visits all of them in order
and reports no success. -/
lemma engineLoop_allNone (bs : List (Option String)) :
    ∀ i, bs.all Option.isNone = true →
      engineLoop i bs = (adapterEvts i bs.length, none) := by
  induction bs with
  | nil => intro i _; rfl
  | cons b rest ih =>
    intro i h
    cases b with
    | some p => simp at h
    | none =>
      simp only [List.all_cons, Option.isNone_none, Bool.true_and] at h
      simp only [engineLoop, ih (i + 1) h, List.length_cons, adapterEvts]

/-- The engine loop stops at the first succeeding backend. -/
lemma engineLoop_firstSuccess (pre : List (Option String)) :
    ∀ i p rest, pre.all Option.isNone = true →
      engineLoop i (pre ++ some p :: rest) =
        (adapterEvts i (pre.length + 1), some p) := by
  induction pre with
  | nil => intro i p rest _; rfl
  | cons b pre1 ih =>
    intro i p rest h
    cases b with
    | some q => simp at h
    | none =>
      simp only [List.all_cons, Option.isNone_none, Bool.true_and] at h
      have hstep : engineLoop i ((none :: pre1) ++ some p :: rest) =
          (Ev.adapter i :: (engineLoop (i + 1) (pre1 ++ some p :: rest)).1,
           (engineLoop (i + 1) (pre1 ++ some p :: rest)).2) := rfl
      rw [hstep, ih (i + 1) p rest h]
      rfl

/-- The engine loop reports no success exactly when every backend raised. -/
lemma engineLoop_none_iff (bs : List (Option String)) :
    ∀ i, ((engineLoop i bs).2 = none ↔ bs.all Option.isNone = true) := by
  induction bs with
  | nil => intro i; simp [engineLoop]
  | cons b rest ih =>
    intro i
    cases b with
    | some p => simp [engineLoop]
    | none => simp [engineLoop, ih (i + 1)]

/-- C6: fallback ordering: when every adapter session raises (exhausted or
hard failure), main runs them all in order and then invokes the offline
cycler exactly once, at the very end of the event list, never running an
adapter afterward; when some session succeeds first, main stops at that
success and the offline cycler never appears among the events, which
consist of adapter events only. -/
theorem engine_fallback_order :
    (∀ bs off, bs.all Option.isNone = true →
        (mainRun bs off).1 = adapterEvts 0 bs.length ++ [Ev.offline]) ∧
    (∀ pre p rest off, pre.all Option.isNone = true →
        mainRun (pre ++ some p :: rest) off =
          (adapterEvts 0 (pre.length + 1), Outcome.onlineOk p)) ∧
    (∀ i n, Ev.offline ∉ adapterEvts i n) := by
  refine ⟨?_, ?_, ?_⟩
  · intro bs off h
    unfold mainRun
    rw [engineLoop_allNone bs 0 h]
    cases off with
    | ok p => rfl
    | error e => rfl
  · intro pre p rest off h
    unfold mainRun
    rw [engineLoop_firstSuccess pre 0 p rest h]
  · intro i n
    induction n generalizing i with
    | zero => simp [adapterEvts]
    | succ m ih => simp [adapterEvts, ih (i + 1)]

/-- Witness for C6: two failing backends fall through to the offline
cycler; a failing backend followed by a succeeding one stops there. -/
theorem engine_fallback_order_witness :
    (mainRun [none, none] (Except.error LErr.noMatch)).1 =
      adapterEvts 0 2 ++ [Ev.offline] ∧
    mainRun ([none] ++ some "p" :: []) (Except.error LErr.noMatch) =
      (adapterEvts 0 2, Outcome.onlineOk "p") :=
  ⟨engine_fallback_order.1 [none, none] (Except.error LErr.noMatch) (by decide),
   engine_fallback_order.2.1 [none] "p" [] (Except.error LErr.noMatch)
     (by decide)⟩

/-- C9: the offline cycler fails distinctly — noSaved when there are no
saved images at all, noMatch when files exist but none satisfies the
orientation predicate — and any success it returns names a file of the
directory that does satisfy the predicate, so the constraint is never
silently relaxed; finally, main terminates with its failure exit exactly
when every backend raised and the offline cycler then failed, with mains
exit message carrying that offline error. -/
theorem offline_distinct_failure :
    (∀ w, local_cycle w [] = Except.error LErr.noSaved) ∧
    (∀ w files, files ≠ [] → (∀ f ∈ files, fmatch w f = false) →
        local_cycle w files = Except.error LErr.noMatch) ∧
    (∀ w files p s1, local_cycle w files = Except.ok (p, s1) →
        ∃ f ∈ files, f.name = p ∧ fmatch w f = true) ∧
    (LErr.noSaved ≠ LErr.noMatch) ∧
    (∀ bs w files e,
        (mainRunFS bs w files).2 = Outcome.failExit e ↔
          (bs.all Option.isNone = true ∧
           local_cycle w files = Except.error e)) := by
  refine ⟨?_, ?_, ?_, ?_, ?_⟩
  · intro w; rfl
  · intro w files hne hnom
    unfold local_cycle
    rw [if_neg (by simp [List.isEmpty_iff, hne])]
    have hfind : (List.insertionSort atimeLE files).find? (fmatch w) = none := by
      rw [List.find?_eq_none]
      intro x hx
      have hxf : x ∈ files := (List.mem_insertionSort atimeLE).mp hx
      simp [hnom x hxf]
    rw [hfind]
  · intro w files p s1 h
    unfold local_cycle at h
    by_cases hne : files.isEmpty = true
    · rw [if_pos hne] at h
      exact Except.noConfusion h
    · rw [if_neg hne] at h
      cases hfind : (List.insertionSort atimeLE files).find? (fmatch w) with
      | none => rw [hfind] at h; exact Except.noConfusion h
      | some f =>
        rw [hfind] at h
        have hmem : f ∈ files :=
          (List.mem_insertionSort atimeLE).mp (List.mem_of_find?_eq_some hfind)
        have hmatch : fmatch w f = true := List.find?_some hfind
        have hp : f.name = p := by
          have := congrArg (fun x => match x with
            | Except.ok (q, _) => q
            | Except.error _ => f.name) h
          simpa using this
        exact ⟨f, hmem, hp, hmatch⟩
  · intro h; exact LErr.noConfusion h
  · intro bs w files e
    unfold mainRunFS mainRun
    cases hE : (engineLoop 0 bs).2 with
    | some p =>
      simp only [hE]
      constructor
      · intro hcon; exact Outcome.noConfusion hcon
      · rintro ⟨hall, _⟩
        have hn : (engineLoop 0 bs).2 = none := (engineLoop_none_iff bs 0).mpr hall
        rw [hE] at hn
        exact Option.noConfusion hn
    | none =>
      have hall : bs.all Option.isNone = true := (engineLoop_none_iff bs 0).mp hE
      simp only [hE]
      cases hL : local_cycle w files with
      | ok pr =>
        simp only [hL, Except.map]
        constructor
        · intro hcon; exact Outcome.noConfusion hcon
        · rintro ⟨_, hcon⟩
          exact Except.noConfusion hcon
      | error e1 =>
        simp only [hL, Except.map]
        constructor
        · intro hout
          refine ⟨hall, ?_⟩
          have : e1 = e := by
            have := congrArg (fun o => match o with
              | Outcome.failExit x => x
              | _ => e1) hout
            simpa using this
          rw [this]
        · rintro ⟨_, hcon⟩
          have : e1 = e := by
            have := congrArg (fun o => match o with
              | Except.error x => x
              | _ => e1) hcon
            simpa using this
          rw [this]

/-- Witness for C9: one wide saved image under a Tall request yields the
noMatch error; a successful run names a matching file; the failure exit of
main with one failing backend and an empty directory is equivalent to that
empty-directory offline error. -/
theorem offline_distinct_failure_witness :
    local_cycle (some false) [FileEnt.mk "a.jpg" 0 (some (4, 3))] =
      Except.error LErr.noMatch ∧
    (∃ f ∈ [FileEnt.mk "a.jpg" 0 (some (4, 3))],
        f.name = "a.jpg" ∧ fmatch (some true) f = true) ∧
    ((mainRunFS [none] (some true) []).2 = Outcome.failExit LErr.noSaved ↔
      ([(none : Option String)].all Option.isNone = true ∧
       local_cycle (some true) ([] : List FileEnt) =
         Except.error LErr.noSaved)) :=
  ⟨offline_distinct_failure.2.1 (some false) [FileEnt.mk "a.jpg" 0 (some (4, 3))]
     (by decide) (by decide),
   offline_distinct_failure.2.2.1 (some true) [FileEnt.mk "a.jpg" 0 (some (4, 3))]
     "a.jpg" [FileEnt.mk "a.jpg" 1 (some (4, 3))] rfl,
   offline_distinct_failure.2.2.2.2 [none] (some true) [] LErr.noSaved⟩

/-- Every access time in the directory is at most the running foldr
maximum used by freshTime. -/
lemma atime_le_fold (files : List FileEnt) (f : FileEnt) (hf : f ∈ files) :
    f.atime ≤ (files.map FileEnt.atime).foldr max 0 := by
  induction files with
  | nil => cases hf
  | cons a rest ih =>
    rcases List.mem_cons.mp hf with rfl | hmem
    · exact Nat.le_max_left _ _
    · exact Nat.le_trans (ih hmem) (Nat.le_max_right _ _)

/-- The refreshed access-time value is strictly above every stored one. -/
lemma atime_lt_freshTime (files : List FileEnt) (f : FileEnt) (hf : f ∈ files) :
    f.atime < freshTime files :=
  Nat.lt_succ_of_le (atime_le_fold files f hf)

/-- In a list sorted by access time, the first element found by a
predicate has the least access time among all elements satisfying it. -/
lemma find_sorted_min (p : FileEnt → Bool) (f : FileEnt) :
    ∀ l : List FileEnt, List.Pairwise atimeLE l → l.find? p = some f →
      ∀ y ∈ l, p y = true → f.atime ≤ y.atime := by
  intro l
  induction l with
  | nil => intro _ hf; exact absurd hf (by simp)
  | cons a rest ih =>
    intro hs hf y hy hpy
    rw [List.pairwise_cons] at hs
    by_cases hpa : p a = true
    · rw [List.find?_cons_of_pos _ hpa] at hf
      have hfa : f = a := by
        have := congrArg (fun o => o.getD a) hf
        simpa using this.symm
      subst hfa
      rcases List.mem_cons.mp hy with rfl | hmem
      · exact Nat.le_refl _
      · exact hs.1 y hmem
    · rw [List.find?_cons_of_neg _ (by simp [hpa])] at hf
      rcases List.mem_cons.mp hy with rfl | hmem
      · exact absurd hpy hpa
      · exact ih hs.2 hf y hmem hpy

/-- C7: recency rotation of the offline cycler: over a directory of
distinctly named files holding at least two orientation matches, two
consecutive local_cycle selections (with no files added or removed in
between) succeed and return two different paths, because the first
selection refreshes the access-time marker of the returned file past
every other marker. -/
theorem offline_recency_rotation (w : Option Bool) (files : List FileEnt)
    (hnd : (files.map FileEnt.name).Nodup)
    (h2 : 2 ≤ (files.filter (fmatch w)).length) :
    ∃ p1 s1 p2 s2,
      local_cycle w files = Except.ok (p1, s1) ∧
      local_cycle w s1 = Except.ok (p2, s2) ∧ p1 ≠ p2 := by
  obtain ⟨a, b, mrest, hfil⟩ :
      ∃ a b mrest, files.filter (fmatch w) = a :: b :: mrest := by
    cases hf : files.filter (fmatch w) with
    | nil => rw [hf] at h2; simp at h2
    | cons a t =>
      cases t with
      | nil => rw [hf] at h2; simp at h2
      | cons b mrest => exact ⟨a, b, mrest, rfl⟩
  have hamem : a ∈ files.filter (fmatch w) := by
    rw [hfil]; exact List.mem_cons_self a _
  have hbmem : b ∈ files.filter (fmatch w) := by
    rw [hfil]; exact List.mem_cons_of_mem a (List.mem_cons_self b _)
  have ha : a ∈ files ∧ fmatch w a = true :=
    ⟨(List.mem_filter.mp hamem).1, (List.mem_filter.mp hamem).2⟩
  have hb : b ∈ files ∧ fmatch w b = true :=
    ⟨(List.mem_filter.mp hbmem).1, (List.mem_filter.mp hbmem).2⟩
  have hab : a.name ≠ b.name := by
    have hsub : List.Sublist ((files.filter (fmatch w)).map FileEnt.name)
        (files.map FileEnt.name) := (List.filter_sublist files).map FileEnt.name
    have hnd2 : ((files.filter (fmatch w)).map FileEnt.name).Nodup :=
      hsub.nodup hnd
    rw [hfil] at hnd2
    rcases List.nodup_cons.mp hnd2 with ⟨hnotin, _⟩
    intro hcon
    exact hnotin (by rw [hcon]; exact List.mem_cons_self b.name _)
  have hinj : ∀ x ∈ files, ∀ y ∈ files, x.name = y.name → x = y := by
    intro x hx y hy hxy
    exact List.inj_on_of_nodup_map hnd hx hy hxy
  -- the first selection
  have hne : files ≠ [] := by
    intro hcon
    rw [hcon] at hfil
    exact List.noConfusion hfil
  obtain ⟨f1, hfind1⟩ :
      ∃ f1, (List.insertionSort atimeLE files).find? (fmatch w) = some f1 := by
    have hex : ((List.insertionSort atimeLE files).find? (fmatch w)).isSome :=
      List.find?_isSome.mpr ⟨a, (List.mem_insertionSort atimeLE).mpr ha.1, ha.2⟩
    exact Option.isSome_iff_exists.mp hex
  have hcall1 : local_cycle w files =
      Except.ok (f1.name, touchEnt f1.name (freshTime files) files) := by
    unfold local_cycle
    rw [if_neg (by simp [List.isEmpty_iff, hne]), hfind1]
  have hf1mem : f1 ∈ files :=
    (List.mem_insertionSort atimeLE).mp (List.mem_of_find?_eq_some hfind1)
  -- a second match not named like the first selection
  obtain ⟨g, hgmem, hgmatch, hgname⟩ :
      ∃ g, g ∈ files ∧ fmatch w g = true ∧ g.name ≠ f1.name := by
    by_cases haf : a.name = f1.name
    · exact ⟨b, hb.1, hb.2, fun hcon => hab (haf.trans hcon.symm)⟩
    · exact ⟨a, ha.1, ha.2, haf⟩
  -- the directory after the first selection
  have hgs1 : g ∈ touchEnt f1.name (freshTime files) files := by
    unfold touchEnt
    refine List.mem_map.mpr ⟨g, hgmem, ?_⟩
    rw [if_neg hgname]
  obtain ⟨f2, hfind2⟩ :
      ∃ f2, (List.insertionSort atimeLE
        (touchEnt f1.name (freshTime files) files)).find? (fmatch w) = some f2 := by
    have hex : ((List.insertionSort atimeLE
        (touchEnt f1.name (freshTime files) files)).find? (fmatch w)).isSome :=
      List.find?_isSome.mpr ⟨g, (List.mem_insertionSort atimeLE).mpr hgs1, hgmatch⟩
    exact Option.isSome_iff_exists.mp hex
  have hs1ne : touchEnt f1.name (freshTime files) files ≠ [] := by
    intro hcon
    rw [hcon] at hgs1
    cases hgs1
  have hcall2 : local_cycle w (touchEnt f1.name (freshTime files) files) =
      Except.ok (f2.name,
        touchEnt f2.name (freshTime (touchEnt f1.name (freshTime files) files))
          (touchEnt f1.name (freshTime files) files)) := by
    unfold local_cycle
    rw [if_neg (by simp [List.isEmpty_iff, hs1ne]), hfind2]
  -- the second selection has minimal access time among matches
  have hf2mem : f2 ∈ touchEnt f1.name (freshTime files) files :=
    (List.mem_insertionSort atimeLE).mp (List.mem_of_find?_eq_some hfind2)
  have hf2match : fmatch w f2 = true := List.find?_some hfind2
  have hmin : f2.atime ≤ g.atime :=
    find_sorted_min (fmatch w) f2 _
      (List.sorted_insertionSort atimeLE _) hfind2 g
      ((List.mem_insertionSort atimeLE).mpr hgs1) hgmatch
  have hgT : g.atime < freshTime files := atime_lt_freshTime files g hgmem
  have hf2T : f2.atime < freshTime files := Nat.lt_of_le_of_lt hmin hgT
  -- the second selection cannot be the refreshed first one
  have hname2 : f2.name ≠ f1.name := by
    intro heq
    obtain ⟨o, homem, hupd⟩ := List.mem_map.mp hf2mem
    have honame : o.name = f2.name := by
      by_cases hON : o.name = f1.name
      · rw [← hupd, if_pos hON]
      · rw [← hupd, if_neg hON]
    have hof1 : o = f1 := hinj o homem f1 hf1mem (honame.trans heq)
    rw [hof1, if_pos rfl] at hupd
    have : f2.atime = freshTime files := by rw [← hupd]
    omega
  exact ⟨f1.name, touchEnt f1.name (freshTime files) files, f2.name,
    touchEnt f2.name (freshTime (touchEnt f1.name (freshTime files) files))
      (touchEnt f1.name (freshTime files) files),
    hcall1, hcall2, fun hcon => hname2 hcon.symm⟩

/-- Witness for C7: two wide saved images under a Wide request rotate. -/
theorem offline_recency_rotation_witness :
    ∃ p1 s1 p2 s2,
      local_cycle (some true)
        [FileEnt.mk "a.jpg" 0 (some (4, 3)), FileEnt.mk "b.jpg" 1 (some (5, 3))] =
        Except.ok (p1, s1) ∧
      local_cycle (some true) s1 = Except.ok (p2, s2) ∧ p1 ≠ p2 :=
  offline_recency_rotation (some true)
    [FileEnt.mk "a.jpg" 0 (some (4, 3)), FileEnt.mk "b.jpg" 1 (some (5, 3))]
    (by decide) (by decide)
